import Mathlib

/-!
Shallow embedding of src/model/proofcheck/lean_gym.py.

The file models, in order:
* the response decoder LeanGymConnection.__parse_response (a Python
  re.findall over the pattern matching key:value pairs, plus the per-value
  typing rules);
* the newline escaping in runTac and the unescaping in the decoder;
* the command serialization __send_query (Python str() of a list of
  strings followed by replacing every apostrophe with a double quote);
* the connection state machine (closed flag, outstanding-query counter,
  temp-file existence) with operations init_search, runTac, clear_search,
  collect, close, and the invoke_lean context manager.
Python ints are modelled as Int, Python strings as Lean String / List Char
(exact for the ASCII range; Python's re \w and repr escaping of
non-printable code points above 127 are modelled ASCII-faithfully).
-/

/-- Models Python re's word-character class [_\w] (ASCII range). -/
def isWordChar (c : Char) : Bool :=
  c.isAlphanum || c == '_'

/-- Matches one value alternative of the pair regex at the head of the
input: the literal null, a bracketed run of non-bracket characters, or a
double-quoted run of non-quote characters.  Returns the matched value text
and the remaining input. -/
def matchValue (cs : List Char) : Option (List Char × List Char) :=
  match cs with
  | 'n' :: 'u' :: 'l' :: 'l' :: rest => some (['n', 'u', 'l', 'l'], rest)
  | '[' :: rest =>
    let run := rest.takeWhile (fun c => !(c == '[') && !(c == ']'))
    (match rest.drop run.length with
     | ']' :: rest2 => some ('[' :: (run ++ [']']), rest2)
     | _ => none)
  | '"' :: rest =>
    let run := rest.takeWhile (fun c => !(c == '"'))
    (match rest.drop run.length with
     | '"' :: rest2 => some ('"' :: (run ++ ['"']), rest2)
     | _ => none)
  | _ => none

/-- Matches the whole pair regex at the head of the input: a double-quoted
nonempty run of word characters, a colon, then a value.  Returns the key,
the raw value text and the remaining input. -/
def matchPair (cs : List Char) : Option (String × String × List Char) :=
  match cs with
  | '"' :: cs1 =>
    let ks := cs1.takeWhile isWordChar
    if ks.isEmpty then none
    else
      match cs1.drop ks.length with
      | '"' :: ':' :: cs2 =>
        (match matchValue cs2 with
         | some (v, rest) => some (String.mk ks, String.mk v, rest)
         | none => none)
      | _ => none
  | _ => none

/-- Scanning loop of re.findall: try the pair regex at each position, on a
match emit the groups and resume after the match.  The fuel is the input
length; every step consumes at least one character, so it never runs out. -/
def findPairsAux : Nat → List Char → List (String × String)
  | 0, _ => []
  | _ + 1, [] => []
  | fuel + 1, c :: rest =>
    match matchPair (c :: rest) with
    | some (k, v, rem) => (k, v) :: findPairsAux fuel rem
    | none => findPairsAux fuel rest

/-- All key/raw-value pairs found in a line, in scan order. -/
def findPairs (cs : List Char) : List (String × String) :=
  findPairsAux cs.length cs

/-- Scanning state machine equivalent to re.findall of a double-quoted run
of non-quote characters: pairs up quotes left to right and collects the
text between each pair. -/
def findQuotedAux : Option (List Char) → List Char → List String
  | _, [] => []
  | none, c :: rest =>
    if c == '"' then findQuotedAux (some []) rest else findQuotedAux none rest
  | some acc, c :: rest =>
    if c == '"' then String.mk acc.reverse :: findQuotedAux none rest
    else findQuotedAux (some (c :: acc)) rest

/-- All double-quoted substrings of a value, in order. -/
def findQuoted (cs : List Char) : List String :=
  findQuotedAux none cs

/-- Models str.replace of the two-character sequence backslash-n by a
newline character (left-to-right, non-overlapping). -/
def unescapeNewlines : List Char → List Char
  | [] => []
  | [c] => [c]
  | c1 :: c2 :: rest =>
    if c1 = '\\' ∧ c2 = 'n' then '\n' :: unescapeNewlines rest
    else c1 :: unescapeNewlines (c2 :: rest)

/-- Models str.replace of a newline character by the two-character
sequence backslash-n, as done by runTac before transmission. -/
def escapeNewlines : List Char → List Char
  | [] => []
  | c :: rest =>
    if c = '\n' then '\\' :: 'n' :: escapeNewlines rest
    else c :: escapeNewlines rest

/-- Whether a backslash immediately followed by the letter n occurs in the
string (the situation in which the newline escaping is not injective). -/
def hasBackslashN : List Char → Bool
  | [] => false
  | [_] => false
  | c1 :: c2 :: rest => (c1 == '\\' && c2 == 'n') || hasBackslashN (c2 :: rest)

/-- Models re.match of a quoted nonempty digit run against the raw value:
an opening quote, one or more decimal digits, then a quote (prefix match,
as re.match is). -/
def isQuotedDigits (value : String) : Bool :=
  match value.data with
  | [] => false
  | c :: rest =>
    (c == '"') &&
      (let ds := rest.takeWhile Char.isDigit
       match rest.drop ds.length with
       | [] => false
       | c2 :: _ => (c2 == '"') && !ds.isEmpty)

/-- Value of a decimal digit string, as Python int() computes it on the
digit-only strings the decoder feeds it. -/
def natOfDigits (ds : List Char) : Nat :=
  ds.foldl (fun acc c => acc * 10 + (c.toNat - 48)) 0

/-- Decoded field value: Python None, int, str or list of str. -/
inductive JValue where
  | vnull
  | vint (n : Nat)
  | vstr (s : String)
  | vlist (ss : List String)
  deriving DecidableEq, Repr

/-- Decoded record: a Python dict as an insertion-ordered association
list. -/
abbrev Record := List (String × JValue)

/-- Python dict assignment: an existing key keeps its position and gets
the new value, a new key is appended. -/
def dictInsert (d : Record) (k : String) (v : JValue) : Record :=
  if d.any (fun p => p.1 == k) then d.map (fun p => if p.1 == k then (k, v) else p)
  else d ++ [(k, v)]

/-- Per-value typing rules of __parse_response, tried in source order:
the literal null, then a quoted digit run read as an integer, then any
other quoted string with newline escapes restored, else the bracketed
list read by collecting its quoted substrings. -/
def decodeValue (value : String) : JValue :=
  if value = "null" then JValue.vnull
  else if isQuotedDigits value then
    JValue.vint (natOfDigits ((value.data.drop 1).dropLast))
  else if value.data.head? = some '"' then
    JValue.vstr (String.mk (unescapeNewlines ((value.data.drop 1).dropLast)))
  else JValue.vlist (findQuoted value.data)

/-- Models LeanGymConnection.__parse_response: find all key/value pairs in
the line and build the dict, later occurrences of a key overwriting
earlier ones. -/
def parseResponse (responce : String) : Record :=
  (findPairs responce.data).foldl (fun d kv => dictInsert d kv.1 (decodeValue kv.2)) []

/-- Whether a log line is a candidate response: nonempty and starting with
an opening brace, per the test in collect. -/
def isCandidate (line : String) : Bool :=
  match line.data with
  | [] => false
  | c :: _ => c == '{'

/-- Lower-case hexadecimal digit, as in Python's backslash-x escapes. -/
def hexDigit (n : Nat) : Char :=
  if n < 10 then Char.ofNat (48 + n) else Char.ofNat (87 + n)

/-- Escaping of one character inside a Python str repr with the given
quote character (exact for the ASCII range). -/
def pyCharEsc (q : Char) (c : Char) : List Char :=
  if c == '\\' || c == q then ['\\', c]
  else if c == '\n' then ['\\', 'n']
  else if c == '\r' then ['\\', 'r']
  else if c == '\t' then ['\\', 't']
  else if c.toNat < 32 || c.toNat == 127 then
    ['\\', 'x', hexDigit (c.toNat / 16), hexDigit (c.toNat % 16)]
  else [c]

/-- Models Python repr of a string: single-quote delimited, except that a
string containing an apostrophe and no double quote is double-quote
delimited; the delimiter and backslashes are escaped inside. -/
def pyStrRepr (s : String) : List Char :=
  let q : Char := if s.data.contains '\'' && !(s.data.contains '"') then '"' else '\''
  q :: ((s.data.map (pyCharEsc q)).flatten ++ [q])

/-- Models Python str of the two-level list a command is built as: the
command name and the list of its string arguments, each rendered by repr
and joined with comma-space inside square brackets. -/
def renderCmd (name : String) (args : List String) : List Char :=
  '[' :: (pyStrRepr name ++ [',', ' ', '['] ++
    List.intercalate [',', ' '] (args.map pyStrRepr) ++ [']', ']'])

/-- Models LeanGymConnection.__send_query: render the command, replace
every apostrophe by a double quote, and append the trailing newline of
the transmitted text. -/
def sendQuery (name : String) (args : List String) : String :=
  String.mk ((renderCmd name args).map (fun c => if c == '\'' then '"' else c) ++ ['\n'])

/-- Python exception as surfaced by the connection operations. -/
inductive PyErr where
  | valueError (msg : String)
  deriving DecidableEq, Repr

/-- Connection state: the closed flag, the outstanding-query counter (a
Python int, hence Int), whether the temporary log file still exists, and
the payloads transmitted so far. -/
structure Conn where
  closed : Bool
  queries : Int
  fileExists : Bool
  sent : List String
  deriving DecidableEq, Repr

/-- State right after LeanGymConnection.__init__: open, zero outstanding
queries, temp log file created, nothing sent. -/
def freshConn : Conn :=
  { closed := false, queries := 0, fileExists := true, sent := [] }

/-- The ValueError every operation raises on a closed connection. -/
def connClosedErr : PyErr := PyErr.valueError "connection is closed"

/-- Models LeanGymConnection.init_search: fails when closed, otherwise
counts one more outstanding query and transmits the command; the
namespaces argument is accepted but never reaches the payload. -/
def init_search (c : Conn) (name : String) (namespaces : List String) : Except PyErr Conn :=
  if c.closed then Except.error connClosedErr
  else Except.ok { c with queries := c.queries + 1,
                          sent := c.sent ++ [sendQuery "init_search" [name, ""]] }

/-- Models LeanGymConnection.runTac: fails when closed, otherwise counts
one more outstanding query and transmits the command with ids rendered in
decimal and newlines in the tactic escaped. -/
def runTac (c : Conn) (search_id tactic_state_id : Int) (tactic : String) : Except PyErr Conn :=
  if c.closed then Except.error connClosedErr
  else Except.ok { c with queries := c.queries + 1,
                          sent := c.sent ++ [sendQuery "run_tac"
                            [toString search_id, toString tactic_state_id,
                             String.mk (escapeNewlines tactic.data)]] }

/-- Models LeanGymConnection.clear_search: fails when closed, otherwise
counts one more outstanding query and transmits the command. -/
def clear_search (c : Conn) (search_id : Int) : Except PyErr Conn :=
  if c.closed then Except.error connClosedErr
  else Except.ok { c with queries := c.queries + 1,
                          sent := c.sent ++ [sendQuery "clear_search" [toString search_id]] }

/-- Loop body of collect over the eventual content of the log, one entry
per readline result: an empty string is the no-new-data case and is
skipped, a line opening with a brace is decoded and consumes one
outstanding query, any other line is ignored.  Running out of log entries
while queries remain models the unbounded busy-poll: no result. -/
def collectRun : Int → List String → Option (List Record × Int)
  | q, [] => if q > 0 then none else some ([], q)
  | q, line :: rest =>
    if q > 0 then
      match line.data with
      | [] => collectRun q rest
      | c :: _ =>
        if c == '{' then
          match collectRun (q - 1) rest with
          | some (rs, qf) => some (parseResponse line :: rs, qf)
          | none => none
        else collectRun q rest
    else some ([], q)

/-- Models LeanGymConnection.collect: fails when closed; otherwise runs
the polling loop against the given log content, returning the decoded
records and the updated connection, or nothing when the loop would poll
forever. -/
def collect (c : Conn) (lines : List String) : Except PyErr (Option (List Record × Conn)) :=
  if c.closed then Except.error connClosedErr
  else Except.ok ((collectRun c.queries lines).map (fun p => (p.1, { c with queries := p.2 })))

/-- Models LeanGymConnection.close: fails when closed, otherwise marks the
connection closed, terminates the session and removes the temporary log
file. -/
def close (c : Conn) : Except PyErr Conn :=
  if c.closed then Except.error connClosedErr
  else Except.ok { c with closed := true, fileExists := false }

/-- One command-issuing call, for reasoning about call sequences. -/
inductive Cmd where
  | initSearch (name : String) (namespaces : List String)
  | runTac (search_id tactic_state_id : Int) (tactic : String)
  | clearSearch (search_id : Int)
  deriving Repr

/-- Dispatch of one command-issuing call. -/
def applyCmd (c : Conn) : Cmd → Except PyErr Conn
  | Cmd.initSearch name ns => init_search c name ns
  | Cmd.runTac sid tsid tac => runTac c sid tsid tac
  | Cmd.clearSearch sid => clear_search c sid

/-- Issues a sequence of commands, stopping at the first raised error. -/
def issueAll (c : Conn) : List Cmd → Except PyErr Conn
  | [] => Except.ok c
  | cmd :: rest =>
    match applyCmd c cmd with
    | Except.ok c2 => issueAll c2 rest
    | Except.error e => Except.error e

/-- One public operation of the connection, for reasoning about whole
interaction traces; a collect carries the log content it observes. -/
inductive Op where
  | cmd (c : Cmd)
  | docollect (lines : List String)
  | doclose

/-- One step of an interaction: the updated state together with the raised
error if the operation raised (state unchanged then, since every
operation checks the closed flag before mutating); no result models a
collect that polls forever. -/
def stepE (c : Conn) : Op → Option (Conn × Option PyErr)
  | Op.cmd cm =>
    (match applyCmd c cm with
     | Except.ok c2 => some (c2, none)
     | Except.error e => some (c, some e))
  | Op.docollect lines =>
    (match collect c lines with
     | Except.ok (some (_, c2)) => some (c2, none)
     | Except.ok none => none
     | Except.error e => some (c, some e))
  | Op.doclose =>
    (match close c with
     | Except.ok c2 => some (c2, none)
     | Except.error e => some (c, some e))

/-- Runs a trace of operations, stopping at the first raised error (which
propagates) and yielding nothing when an operation never returns. -/
def runTraceP (c : Conn) : List Op → Option (Conn × Option PyErr)
  | [] => some (c, none)
  | op :: rest =>
    match stepE c op with
    | some (c2, none) => runTraceP c2 rest
    | some (c2, some e) => some (c2, some e)
    | none => none

/-- Models the invoke_lean context manager: construct a connection, run
the managed block (a trace of API operations), then call close in the
finally clause on every exit path; the block's error propagates unless
close itself raises; nothing means the block never exits. -/
def invokeGym (ops : List Op) : Option (Conn × Option PyErr) :=
  match runTraceP freshConn ops with
  | none => none
  | some (c, err) =>
    (match close c with
     | Except.ok c2 => some (c2, err)
     | Except.error e => some (c, some e))

/-- Whether the first list is a prefix of the second (by character). -/
def startsWith : List Char → List Char → Bool
  | [], _ => true
  | _ :: _, [] => false
  | a :: as2, b :: bs2 => a == b && startsWith as2 bs2

/-- Models the Python substring test: whether the first list occurs
contiguously inside the second. -/
def containsSub (needle : List Char) : List Char → Bool
  | [] => needle.isEmpty
  | c :: rest => startsWith needle (c :: rest) || containsSub needle rest

/-- Comma-separated rendering of the quoted strings of a wire list value,
as the REPL emits them inside brackets. -/
def quotedItems : List String → List Char
  | [] => []
  | [s] => '"' :: (s.data ++ ['"'])
  | s :: rest => '"' :: (s.data ++ ['"', ',']) ++ quotedItems rest

/-- A full bracketed wire list value built from its element strings. -/
def renderStrList (ss : List String) : String :=
  String.mk ('[' :: (quotedItems ss ++ [']']))

/-- With no outstanding queries the polling loop of collect exits at once,
reading nothing. -/
theorem collectRun_nonpos (q : Int) (lines : List String) (h : q ≤ 0) :
    collectRun q lines = some ([], q) := by
  cases lines with
  | nil => rw [collectRun, if_neg (by omega)]
  | cons l rest => rw [collectRun, if_neg (by omega)]

/-- Characterization of a candidate line: its character list starts with
an opening brace. -/
theorem isCandidate_true_iff (line : String) :
    isCandidate line = true ↔ ∃ tl, line.data = '{' :: tl := by
  rcases hd : line.data with _ | ⟨c, tl⟩
  · simp only [isCandidate, hd]
    simp
  · simp only [isCandidate, hd]
    simp [beq_iff_eq]

/-- Processing a non-candidate entry in the collect loop changes nothing:
neither the outstanding count nor the returned records. -/
theorem collectRun_skip (q : Int) (line : String) (rest : List String)
    (h : isCandidate line = false) :
    collectRun q (line :: rest) = collectRun q rest := by
  by_cases hq : q > 0
  · rw [collectRun, if_pos hq]
    rcases hd : line.data with _ | ⟨c, tl⟩
    · rfl
    · have hc : (c == '{') = false := by
        simpa only [isCandidate, hd] using h
      simp [hc]
  · rw [collectRun_nonpos q (line :: rest) (by omega),
        collectRun_nonpos q rest (by omega)]

/-- When the log holds exactly as many candidate lines as there are
outstanding queries, the collect loop terminates, consumes one query per
candidate line, and returns the decoded records in line order. -/
theorem collectRun_exact (lines : List String) (n : Nat)
    (h : (lines.filter isCandidate).length = n) :
    collectRun (n : Int) lines =
      some ((lines.filter isCandidate).map parseResponse, 0) := by
  induction lines generalizing n with
  | nil =>
    simp at h
    subst h
    simp [collectRun]
  | cons l rest ih =>
    by_cases hc : isCandidate l
    · have hf : (l :: rest).filter isCandidate = l :: rest.filter isCandidate := by
        simp [List.filter_cons, hc]
      rw [hf] at h ⊢
      rcases n with _ | m
      · simp at h
      · have hm : (rest.filter isCandidate).length = m := by
          simpa using h
        obtain ⟨tl, hdl⟩ := (isCandidate_true_iff l).1 hc
        rw [collectRun, if_pos (by exact_mod_cast Nat.succ_pos m), hdl]
        simp only [beq_self_eq_true, if_pos]
        have hq1 : ((m + 1 : Nat) : Int) - 1 = (m : Int) := by push_cast; ring
        rw [hq1, ih m hm]
        simp
    · have hb : isCandidate l = false := by simpa using hc
      rw [collectRun_skip _ _ _ hb]
      have hf : (l :: rest).filter isCandidate = rest.filter isCandidate := by
        simp [List.filter_cons, hb]
      rw [hf] at h ⊢
      exact ih n h

/-- A command-issuing call on an open connection succeeds, stays open,
counts one more outstanding query and leaves the log file alone. -/
theorem applyCmd_open (c : Conn) (cm : Cmd) (h : c.closed = false) :
    ∃ c2, applyCmd c cm = Except.ok c2 ∧ c2.closed = false ∧
      c2.queries = c.queries + 1 ∧ c2.fileExists = c.fileExists := by
  cases cm with
  | initSearch name ns =>
    refine ⟨Conn.mk false (c.queries + 1) c.fileExists
      (c.sent ++ [sendQuery "init_search" [name, ""]]), ?_, rfl, rfl, rfl⟩
    simp [applyCmd, init_search, h]
  | runTac sid tsid tac =>
    refine ⟨Conn.mk false (c.queries + 1) c.fileExists
      (c.sent ++ [sendQuery "run_tac" [toString sid, toString tsid,
        String.mk (escapeNewlines tac.data)]]), ?_, rfl, rfl, rfl⟩
    simp [applyCmd, runTac, h]
  | clearSearch sid =>
    refine ⟨Conn.mk false (c.queries + 1) c.fileExists
      (c.sent ++ [sendQuery "clear_search" [toString sid]]), ?_, rfl, rfl, rfl⟩
    simp [applyCmd, clear_search, h]

/-- Issuing any sequence of commands on an open connection succeeds and
raises the outstanding-query counter by exactly the sequence length. -/
theorem issueAll_open (cmds : List Cmd) (c : Conn) (h : c.closed = false) :
    ∃ s, issueAll c cmds = Except.ok s ∧ s.closed = false ∧
      s.queries = c.queries + cmds.length := by
  induction cmds generalizing c with
  | nil => exact ⟨c, rfl, h, by simp⟩
  | cons cm rest ih =>
    obtain ⟨c2, h1, h2, h3, _⟩ := applyCmd_open c cm h
    obtain ⟨s, h4, h5, h6⟩ := ih c2 h2
    refine ⟨s, ?_, h5, ?_⟩
    · rw [issueAll, h1]
      exact h4
    · rw [h6, h3]
      simp only [List.length_cons]
      push_cast
      ring

/-- Dropping the first character preserves absence of the backslash-n
sequence. -/
theorem hasBackslashN_cons (c : Char) (rest : List Char)
    (h : hasBackslashN (c :: rest) = false) : hasBackslashN rest = false := by
  cases rest with
  | nil => rfl
  | cons d tl =>
    have : ((c == '\\' && d == 'n') || hasBackslashN (d :: tl)) = false := h
    simpa using (Bool.or_eq_false_iff.1 this).2

/-- On a string in which a backslash is never immediately followed by the
letter n, unescaping undoes escaping exactly. -/
theorem unescape_escape (s : List Char) (h : hasBackslashN s = false) :
    unescapeNewlines (escapeNewlines s) = s := by
  induction s with
  | nil => rfl
  | cons c rest ih =>
    by_cases hc : c = '\n'
    · subst hc
      rw [escapeNewlines, if_pos rfl]
      rw [show unescapeNewlines ('\\' :: 'n' :: escapeNewlines rest) =
            '\n' :: unescapeNewlines (escapeNewlines rest) by
          rw [unescapeNewlines, if_pos ⟨rfl, rfl⟩]]
      rw [ih (hasBackslashN_cons _ _ h)]
    · rw [escapeNewlines, if_neg hc]
      cases rest with
      | nil => rfl
      | cons d tl =>
        have hne : ¬ (c = '\\' ∧ d = 'n') := by
          rintro ⟨h1, h2⟩
          subst h1
          subst h2
          have : ((('\\' : Char) == '\\' && ('n' : Char) == 'n') ||
              hasBackslashN ('n' :: tl)) = false := h
          simp at this
        by_cases hd : d = '\n'
        · subst hd
          rw [show escapeNewlines ('\n' :: tl) = '\\' :: 'n' :: escapeNewlines tl by
              rw [escapeNewlines, if_pos rfl]]
          rw [show unescapeNewlines (c :: '\\' :: 'n' :: escapeNewlines tl) =
                c :: unescapeNewlines ('\\' :: 'n' :: escapeNewlines tl) by
              rw [unescapeNewlines, if_neg (by rintro ⟨_, h2⟩; exact absurd h2 (by decide))]]
          rw [show ('\\' :: 'n' :: escapeNewlines tl) = escapeNewlines ('\n' :: tl) by
              rw [escapeNewlines, if_pos rfl]]
          rw [ih (hasBackslashN_cons _ _ h)]
        · rw [show escapeNewlines (d :: tl) = d :: escapeNewlines tl by
              rw [escapeNewlines, if_neg hd]]
          rw [show unescapeNewlines (c :: d :: escapeNewlines tl) =
                c :: unescapeNewlines (d :: escapeNewlines tl) by
              rw [unescapeNewlines, if_neg hne]]
          rw [show (d :: escapeNewlines tl) = escapeNewlines (d :: tl) by
              rw [escapeNewlines, if_neg hd]]
          rw [ih (hasBackslashN_cons _ _ h)]

/-- The collect loop never drives the outstanding counter negative: it
only decrements under its positivity guard. -/
theorem collectRun_nonneg (lines : List String) (q : Int) (rs : List Record)
    (qf : Int) (h0 : 0 ≤ q) (h : collectRun q lines = some (rs, qf)) : 0 ≤ qf := by
  induction lines generalizing q rs with
  | nil =>
    rw [collectRun] at h
    by_cases hq : q > 0
    · rw [if_pos hq] at h
      exact absurd h (by simp)
    · rw [if_neg hq] at h
      simp at h
      omega
  | cons l rest ih =>
    rw [collectRun] at h
    by_cases hq : q > 0
    · rw [if_pos hq] at h
      split at h
      · exact ih q rs h0 h
      · rename_i x c tl heq
        by_cases hc : c == '{'
        · rw [if_pos hc] at h
          rcases hcr : collectRun (q - 1) rest with _ | ⟨rs2, qf2⟩
          · rw [hcr] at h
            simp at h
          · rw [hcr] at h
            simp at h
            obtain ⟨hA, hB⟩ := h
            rw [hB] at hcr
            exact ih (q - 1) rs2 (by omega) hcr
        · rw [if_neg hc] at h
          exact ih q rs h0 h
    · rw [if_neg hq] at h
      simp at h
      omega

/-- Connection invariant preserved by every reachable step: the
outstanding counter is nonnegative, and once the connection is closed its
temporary log file is gone. -/
def ConnInv (c : Conn) : Prop :=
  0 ≤ c.queries ∧ (c.closed = true → c.fileExists = false)

/-- Every step of the interaction semantics preserves the connection
invariant, whether the operation succeeds or raises. -/
theorem stepE_inv (c : Conn) (op : Op) (c2 : Conn) (err : Option PyErr)
    (hinv : ConnInv c) (h : stepE c op = some (c2, err)) : ConnInv c2 := by
  cases op with
  | cmd cm =>
    rw [stepE] at h
    by_cases hcl : c.closed = true
    · have hstop : applyCmd c cm = Except.error connClosedErr := by
        cases cm <;> simp [applyCmd, init_search, runTac, clear_search, hcl]
      rw [hstop] at h
      simp at h
      rw [← h.1]
      exact hinv
    · have hopen : c.closed = false := by simpa using hcl
      obtain ⟨c3, h1, h2, h3, h4⟩ := applyCmd_open c cm hopen
      rw [h1] at h
      simp at h
      rw [← h.1]
      have h5 := hinv.1
      refine ⟨by rw [h3]; omega, ?_⟩
      rw [h2]
      simp
  | docollect lines =>
    rw [stepE, collect] at h
    by_cases hcl : c.closed = true
    · rw [if_pos hcl] at h
      simp at h
      rw [← h.1]
      exact hinv
    · rw [if_neg hcl] at h
      rcases hcr : collectRun c.queries lines with _ | ⟨rs, qf⟩
      · rw [hcr] at h
        simp at h
      · rw [hcr] at h
        simp at h
        rw [← h.1]
        exact ⟨collectRun_nonneg lines c.queries rs qf hinv.1 hcr, hinv.2⟩
  | doclose =>
    rw [stepE, close] at h
    by_cases hcl : c.closed = true
    · rw [if_pos hcl] at h
      simp at h
      rw [← h.1]
      exact hinv
    · rw [if_neg hcl] at h
      simp at h
      rw [← h.1]
      exact ⟨hinv.1, fun _ => rfl⟩

/-- Running a trace preserves the connection invariant up to the state in
which the trace returns or raises. -/
theorem runTraceP_inv (ops : List Op) (c : Conn) (c2 : Conn) (err : Option PyErr)
    (hinv : ConnInv c) (h : runTraceP c ops = some (c2, err)) : ConnInv c2 := by
  induction ops generalizing c with
  | nil =>
    rw [runTraceP] at h
    simp at h
    rw [← h.1]
    exact hinv
  | cons op rest ih =>
    rw [runTraceP] at h
    rcases hs : stepE c op with _ | ⟨c3, err3⟩
    · rw [hs] at h
      simp at h
    · rw [hs] at h
      cases err3 with
      | none =>
        exact ih c3 (stepE_inv c op c3 none hinv hs) h
      | some e =>
        simp at h
        rw [← h.1]
        exact stepE_inv c op c3 (some e) hinv hs

/-- takeWhile collects exactly the leading block when everything in it
satisfies the predicate and the next element does not. -/
theorem takeWhile_append_stop (p : Char → Bool) (ds : List Char) (x : Char)
    (rest : List Char) (h1 : ∀ c ∈ ds, p c = true) (h2 : p x = false) :
    (ds ++ x :: rest).takeWhile p = ds := by
  induction ds with
  | nil => simp [List.takeWhile_cons, h2]
  | cons d tl ih =>
    simp only [List.cons_append, List.takeWhile_cons, h1 d (by simp)]
    rw [ih (fun c hc => h1 c (by simp [hc]))]
    simp

/-- A quoted nonempty run of decimal digits is decoded as the integer
those digits denote. -/
theorem decodeValue_digits (ds : List Char) (h1 : ds ≠ [])
    (h2 : ∀ c ∈ ds, c.isDigit = true) :
    decodeValue (String.mk ('"' :: (ds ++ ['"']))) = JValue.vint (natOfDigits ds) := by
  have hne : String.mk ('"' :: (ds ++ ['"'])) ≠ "null" := by
    intro he
    have hd := congrArg String.data he
    rw [show ("null" : String).data = ['n', 'u', 'l', 'l'] from rfl] at hd
    simp at hd
  have hq : isQuotedDigits (String.mk ('"' :: (ds ++ ['"']))) = true := by
    simp only [isQuotedDigits]
    rw [takeWhile_append_stop Char.isDigit ds '"' [] h2 (by decide)]
    rw [List.drop_left]
    simp [List.isEmpty_iff, h1]
  rw [decodeValue, if_neg hne, if_pos hq]
  congr 1
  show natOfDigits (List.dropLast (ds ++ ['"'])) = natOfDigits ds
  rw [List.dropLast_concat]

/-- Scanning characters that are not quotes finds nothing new. -/
theorem findQuotedAux_skip (cs rest : List Char)
    (h : ∀ c ∈ cs, (c == '"') = false) :
    findQuotedAux none (cs ++ rest) = findQuotedAux none rest := by
  induction cs with
  | nil => rfl
  | cons c tl ih =>
    simp only [List.cons_append, findQuotedAux, h c (by simp)]
    rw [if_neg (by simp [h c (by simp)])]
    exact ih (fun d hd => h d (by simp [hd]))

/-- Inside an open quote, scanning quote-free text up to the closing quote
emits exactly the accumulated text. -/
theorem findQuotedAux_inside (s : List Char) (acc : List Char) (rest : List Char)
    (h : ∀ c ∈ s, (c == '"') = false) :
    findQuotedAux (some acc) (s ++ '"' :: rest) =
      String.mk (acc.reverse ++ s) :: findQuotedAux none rest := by
  induction s generalizing acc with
  | nil =>
    simp only [List.nil_append, findQuotedAux]
    rw [if_pos (by simp)]
    simp
  | cons c tl ih =>
    simp only [List.cons_append, List.append_eq, findQuotedAux]
    rw [if_neg (by simp [h c (by simp)])]
    rw [ih (c :: acc) (fun d hd => h d (by simp [hd]))]
    simp

/-- The quoted-string scan over a rendered list of quote-free strings
recovers exactly those strings in order. -/
theorem findQuoted_quotedItems (ss : List String)
    (h : ∀ s ∈ ss, ∀ c ∈ s.data, (c == '"') = false) :
    findQuotedAux none (quotedItems ss ++ [']']) = ss := by
  induction ss with
  | nil =>
    simp [quotedItems, findQuotedAux]
  | cons s tl ih =>
    cases tl with
    | nil =>
      simp only [quotedItems, List.cons_append, List.append_eq, findQuotedAux]
      rw [if_pos (by simp)]
      rw [show (s.data ++ ['"']) ++ [']'] = s.data ++ '"' :: [']'] by simp]
      rw [findQuotedAux_inside s.data [] [']'] (h s (by simp))]
      simp [findQuotedAux]
    | cons s2 tl2 =>
      simp only [quotedItems, List.cons_append, List.append_eq, findQuotedAux]
      rw [if_pos (by simp)]
      rw [show ((s.data ++ ['"', ',']) ++ quotedItems (s2 :: tl2)) ++ [']'] =
            s.data ++ '"' :: (',' :: (quotedItems (s2 :: tl2) ++ [']'])) by simp]
      rw [findQuotedAux_inside s.data [] _ (h s (by simp))]
      simp only [findQuotedAux]
      rw [if_neg (by simp)]
      rw [ih (fun t ht => h t (by simp [ht]))]
      simp

/-- A rendered bracketed list of quote-free strings is decoded back to
exactly that list of strings. -/
theorem decodeValue_list (ss : List String)
    (h : ∀ s ∈ ss, '"' ∉ s.data) :
    decodeValue (renderStrList ss) = JValue.vlist ss := by
  have hchars : ∀ s ∈ ss, ∀ c ∈ s.data, (c == '"') = false := by
    intro s hs c hc
    rw [beq_eq_false_iff_ne]
    intro he
    exact h s hs (he ▸ hc)
  have hdata : (renderStrList ss).data = '[' :: (quotedItems ss ++ [']']) := rfl
  have hne : renderStrList ss ≠ "null" := by
    intro he
    have hd := congrArg String.data he
    rw [hdata, show ("null" : String).data = ['n', 'u', 'l', 'l'] from rfl] at hd
    simp at hd
  have hq : isQuotedDigits (renderStrList ss) = false := by
    simp only [isQuotedDigits, hdata]
    simp
  have hh : ¬ ((renderStrList ss).data.head? = some '"') := by
    rw [hdata]
    simp
  rw [decodeValue, if_neg hne, if_neg (by simp [hq]), if_neg hh]
  congr 1
  rw [hdata]
  rw [show findQuoted ('[' :: (quotedItems ss ++ [']'])) =
        findQuotedAux none (quotedItems ss ++ [']']) by
      rw [findQuoted, findQuotedAux, if_neg (by decide)]]
  exact findQuoted_quotedItems ss hchars

/-- Replacing every apostrophe by a double quote leaves no apostrophe in
the result. -/
theorem apos_not_mem_map (l : List Char) :
    '\'' ∉ l.map (fun c => if c == '\'' then '"' else c) := by
  intro hm
  rw [List.mem_map] at hm
  obtain ⟨c, hc, he⟩ := hm
  by_cases h : c = '\''
  · rw [if_pos (by simp [h])] at he
    exact absurd he (by decide)
  · rw [if_neg (by simp [h])] at he
    exact h he

/-- C1: for every sequence of n command-issuing calls on an open fresh
connection with no intervening collect, the outstanding count equals n,
and a subsequent collect over a log holding exactly n candidate lines
returns exactly the n decoded records in line order. -/
theorem spec_c1 (cmds : List Cmd) (lines : List String)
    (h : (lines.filter isCandidate).length = cmds.length) :
    ∃ s, issueAll freshConn cmds = Except.ok s ∧ s.queries = (cmds.length : Int) ∧
      collectRun s.queries lines =
        some ((lines.filter isCandidate).map parseResponse, 0) := by
  obtain ⟨s, h1, h2, h3⟩ := issueAll_open cmds freshConn rfl
  have hs : s.queries = (cmds.length : Int) := by
    rw [h3]
    simp [freshConn]
  refine ⟨s, h1, hs, ?_⟩
  rw [hs, ← h]
  exact collectRun_exact lines _ rfl

/-- Witness instantiating C1 at three commands and a log with a banner, a
no-data poll, noise and three candidate lines. -/
theorem spec_c1_witness :
    ∃ s, issueAll freshConn
        [Cmd.initSearch "nat.add_comm" ["nat"], Cmd.runTac 0 0 "refl", Cmd.clearSearch 0] =
        Except.ok s ∧
      s.queries = (([Cmd.initSearch "nat.add_comm" ["nat"], Cmd.runTac 0 0 "refl",
          Cmd.clearSearch 0] : List Cmd).length : Int) ∧
      collectRun s.queries ["startup banner", "", "\x7b\"a\":null\x7d", "junk",
          "\x7b\"b\":\"3\"\x7d", "\x7b\"c\":[\"x\",\"y\"]\x7d"] =
        some (((["startup banner", "", "\x7b\"a\":null\x7d", "junk", "\x7b\"b\":\"3\"\x7d",
          "\x7b\"c\":[\"x\",\"y\"]\x7d"] : List String).filter isCandidate).map parseResponse, 0) :=
  spec_c1 _ _ (by decide)

/-- C2: the decoder maps the example line to the record with a absent, b
the integer 3 and c the string list, and in general null decodes to the
absent value, a quoted nonempty digit run decodes to an integer, and a
bracketed list decodes to the ordered sequence of its quoted strings. -/
theorem spec_c2 :
    parseResponse "\x7b\"a\":null,\"b\":\"3\",\"c\":[\"x\",\"y\"]\x7d" =
      [("a", JValue.vnull), ("b", JValue.vint 3), ("c", JValue.vlist ["x", "y"])] ∧
    decodeValue "null" = JValue.vnull ∧
    (∀ ds : List Char, ds ≠ [] → (∀ c ∈ ds, c.isDigit = true) →
      decodeValue (String.mk ('"' :: (ds ++ ['"']))) = JValue.vint (natOfDigits ds)) ∧
    (∀ ss : List String, (∀ s ∈ ss, '"' ∉ s.data) →
      decodeValue (renderStrList ss) = JValue.vlist ss) :=
  ⟨by decide, rfl, decodeValue_digits, decodeValue_list⟩

/-- Witness instantiating the general clauses of C2 at the digit run 207
and the two-element list. -/
theorem spec_c2_witness :
    decodeValue (String.mk ('"' :: ("207".data ++ ['"']))) =
      JValue.vint (natOfDigits "207".data) ∧
    decodeValue (renderStrList ["x", "y"]) = JValue.vlist ["x", "y"] :=
  ⟨spec_c2.2.2.1 "207".data (by decide) (by decide),
   spec_c2.2.2.2 ["x", "y"] (by decide)⟩

/-- Counterexample to C3 as stated: the tactic consisting of a backslash,
the letter n and a newline contains an embedded newline, yet escaping and
then unescaping does not restore it. -/
theorem spec_c3_cex :
    ("\\n\n".data.contains '\n') = true ∧
    unescapeNewlines (escapeNewlines "\\n\n".data) ≠ "\\n\n".data := by
  decide

/-- C3 (amended): for every tactic string containing embedded newline
characters in which a backslash is never immediately followed by the
letter n, escaping and then unescaping restores the original exactly. -/
theorem spec_c3 (tactic : String) (h1 : tactic.data.contains '\n' = true)
    (h2 : hasBackslashN tactic.data = false) :
    unescapeNewlines (escapeNewlines tactic.data) = tactic.data :=
  unescape_escape tactic.data h2

/-- Witness instantiating amended C3 at a two-line tactic. -/
theorem spec_c3_witness :
    unescapeNewlines (escapeNewlines "intro x\nexact h".data) = "intro x\nexact h".data :=
  spec_c3 "intro x\nexact h" (by decide) (by decide)

/-- C4: a log line not starting with an opening brace leaves the
outstanding count unchanged and contributes no record to the collect
result. -/
theorem spec_c4 (line : String) (q : Int) (rest : List String)
    (h : isCandidate line = false) :
    collectRun q (line :: rest) = collectRun q rest :=
  collectRun_skip q line rest h

/-- Witness instantiating C4 at a banner line before one response. -/
theorem spec_c4_witness :
    collectRun 1 ["Lean REPL banner", "\x7b\"a\":null\x7d"] =
      collectRun 1 ["\x7b\"a\":null\x7d"] :=
  spec_c4 "Lean REPL banner" 1 ["\x7b\"a\":null\x7d"] (by decide)

/-- C5: every public operation on a closed connection fails with the
invalid-state error, and in particular a second close fails with it. -/
theorem spec_c5 (c : Conn) (h : c.closed = true) (name : String) (ns : List String)
    (sid tsid : Int) (tac : String) (lines : List String) :
    init_search c name ns = Except.error connClosedErr ∧
    runTac c sid tsid tac = Except.error connClosedErr ∧
    clear_search c sid = Except.error connClosedErr ∧
    collect c lines = Except.error connClosedErr ∧
    close c = Except.error connClosedErr ∧
    (close freshConn >>= close) = Except.error connClosedErr := by
  refine ⟨?_, ?_, ?_, ?_, ?_, rfl⟩ <;>
    simp [init_search, runTac, clear_search, collect, close, h]

/-- Witness instantiating C5 at a concrete closed connection. -/
theorem spec_c5_witness :
    init_search (Conn.mk true 0 false []) "nat.le_refl" ["nat"] = Except.error connClosedErr ∧
    runTac (Conn.mk true 0 false []) 1 2 "refl" = Except.error connClosedErr ∧
    clear_search (Conn.mk true 0 false []) 1 = Except.error connClosedErr ∧
    collect (Conn.mk true 0 false []) [] = Except.error connClosedErr ∧
    close (Conn.mk true 0 false []) = Except.error connClosedErr ∧
    (close freshConn >>= close) = Except.error connClosedErr :=
  spec_c5 (Conn.mk true 0 false []) rfl "nat.le_refl" ["nat"] 1 2 "refl" []

/-- C6: a candidate line in which the pair grammar matches nothing decodes
to a record with no fields without failing, and collect still consumes one
outstanding query for it. -/
theorem spec_c6 (line : String) (q : Int) (rest : List String)
    (hc : isCandidate line = true) (hm : findPairs line.data = []) (hq : 0 < q) :
    parseResponse line = [] ∧
    collectRun q (line :: rest) =
      (collectRun (q - 1) rest).map (fun p => (([] : Record) :: p.1, p.2)) := by
  have hp : parseResponse line = [] := by
    rw [parseResponse, hm]
    rfl
  refine ⟨hp, ?_⟩
  obtain ⟨tl, hdl⟩ := (isCandidate_true_iff line).1 hc
  rw [collectRun, if_pos (by omega), hdl]
  rcases hcr : collectRun (q - 1) rest with _ | ⟨rs2, qf2⟩
  · simp [hcr]
  · simp [hcr, hp]

/-- Witness instantiating C6 at a malformed candidate line. -/
theorem spec_c6_witness :
    parseResponse "\x7bmalformed" = [] ∧
    collectRun 1 ["\x7bmalformed"] =
      (collectRun (1 - 1) []).map (fun p => (([] : Record) :: p.1, p.2)) :=
  spec_c6 "\x7bmalformed" 1 [] (by decide) (by decide) (by decide)

/-- C7: init_search transmits the same wire command for every value of the
namespaces argument, and the command sent carries the declaration name
with an empty string as the second argument. -/
theorem spec_c7 (c : Conn) (h : c.closed = false) (name : String) (ns ns2 : List String) :
    init_search c name ns = init_search c name ns2 ∧
    init_search c name ns = Except.ok (Conn.mk c.closed (c.queries + 1) c.fileExists
      (c.sent ++ [sendQuery "init_search" [name, ""]])) := by
  constructor
  · rfl
  · simp [init_search, h]

/-- Witness instantiating C7 at a fresh connection and two different
namespace lists. -/
theorem spec_c7_witness :
    init_search freshConn "nat.add_comm" ["nat", "list"] =
      init_search freshConn "nat.add_comm" [] ∧
    init_search freshConn "nat.add_comm" ["nat", "list"] =
      Except.ok (Conn.mk freshConn.closed (freshConn.queries + 1) freshConn.fileExists
        (freshConn.sent ++ [sendQuery "init_search" ["nat.add_comm", ""]])) :=
  spec_c7 freshConn rfl "nat.add_comm" ["nat", "list"] []

/-- C8: along every interaction trace from a fresh connection the
outstanding count stays nonnegative. -/
theorem spec_c8 (ops : List Op) (c : Conn) (err : Option PyErr)
    (h : runTraceP freshConn ops = some (c, err)) : 0 ≤ c.queries :=
  (runTraceP_inv ops freshConn c err ⟨le_refl 0, by simp [freshConn]⟩ h).1

/-- Witness instantiating C8 at a trace with one command and one
collect. -/
theorem spec_c8_witness :
    0 ≤ (Conn.mk false 0 true ["[\"clear_search\", [\"0\"]]\n"]).queries :=
  spec_c8 [Op.cmd (Cmd.clearSearch 0), Op.docollect ["\x7b\x7d"]]
    (Conn.mk false 0 true ["[\"clear_search\", [\"0\"]]\n"]) none (by decide)

/-- C9: whenever the scoped-acquisition helper's managed block exits,
normally or with a propagated error, the resulting connection is closed
and its temporary log file no longer exists. -/
theorem spec_c9 (ops : List Op) (c : Conn) (err : Option PyErr)
    (h : invokeGym ops = some (c, err)) :
    c.closed = true ∧ c.fileExists = false := by
  unfold invokeGym at h
  rcases ht : runTraceP freshConn ops with _ | ⟨c1, err1⟩
  · rw [ht] at h
    simp at h
  · rw [ht] at h
    have hinv : ConnInv c1 :=
      runTraceP_inv ops freshConn c1 err1 ⟨le_refl 0, by simp [freshConn]⟩ ht
    have h2 : (match close c1 with
        | Except.ok c2 => some (c2, err1)
        | Except.error e => some (c1, some e)) = some (c, err) := h
    by_cases hcl : c1.closed = true
    · rw [show close c1 = Except.error connClosedErr by simp [close, hcl]] at h2
      have h3 : (some (c1, some connClosedErr) : Option (Conn × Option PyErr)) =
          some (c, err) := h2
      injection h3 with h4
      injection h4 with h5 h6
      rw [← h5]
      exact ⟨hcl, hinv.2 hcl⟩
    · have hco : c1.closed = false := by simpa using hcl
      rw [show close c1 = Except.ok (Conn.mk true c1.queries false c1.sent) by
          simp [close, hco]] at h2
      have h3 : (some (Conn.mk true c1.queries false c1.sent, err1) :
          Option (Conn × Option PyErr)) = some (c, err) := h2
      injection h3 with h4
      injection h4 with h5 h6
      rw [← h5]
      exact ⟨rfl, rfl⟩

/-- Witness instantiating C9 at a block issuing one command and one
collect. -/
theorem spec_c9_witness :
    (Conn.mk true 0 false ["[\"init_search\", [\"x\", \"\"]]\n"]).closed = true ∧
    (Conn.mk true 0 false ["[\"init_search\", [\"x\", \"\"]]\n"]).fileExists = false :=
  spec_c9 [Op.cmd (Cmd.initSearch "x" []), Op.docollect ["\x7b\"a\":null\x7d"]]
    (Conn.mk true 0 false ["[\"init_search\", [\"x\", \"\"]]\n"]) none (by decide)

/-- C10: serialization replaces every apostrophe of the rendered command
by a double quote, so no transmitted payload contains an apostrophe, and
for the tactic consisting of the letter h and an apostrophe the runTac
payload does not contain the argument text verbatim. -/
theorem spec_c10 :
    (∀ (name : String) (args : List String), '\'' ∉ (sendQuery name args).data) ∧
    '\'' ∈ ("h'" : String).data ∧
    containsSub ("h'" : String).data
      (sendQuery "run_tac" ["1", "2",
        String.mk (escapeNewlines ("h'" : String).data)]).data = false := by
  refine ⟨?_, by decide, by decide⟩
  intro name args hm
  rw [show (sendQuery name args).data =
        (renderCmd name args).map (fun c => if c == '\'' then '"' else c) ++ ['\n']
      from rfl] at hm
  rw [List.mem_append] at hm
  rcases hm with hm | hm
  · exact apos_not_mem_map (renderCmd name args) hm
  · simp at hm

/-- Witness instantiating the universal clause of C10 at a concrete
command. -/
theorem spec_c10_witness :
    '\'' ∉ (sendQuery "run_tac" ["1", "2", "cases h"]).data :=
  spec_c10.1 "run_tac" ["1", "2", "cases h"]
